import Mathlib

set_option linter.unusedVariables false

deriving instance DecidableEq for Except

namespace CraftingInterpreters

/-- Source position (src/src/lexer/source.rs, struct Position): line, column
and character index, all zero-based. -/
structure Position where
  line : Nat
  column : Nat
  index : Nat
deriving DecidableEq, Repr

/-- Initial position, Position::default(). -/
def Position.init : Position := ⟨0, 0, 0⟩

/-- Position::move_to_next_column. -/
def Position.move_to_next_column (p : Position) : Position :=
  { p with column := p.column + 1, index := p.index + 1 }

/-- Position::move_to_next_line. -/
def Position.move_to_next_line (p : Position) : Position :=
  { line := p.line + 1, column := 0, index := p.index + 1 }

/-- Advance of the position over one consumed character, the match inside
Source::next: newline moves to the next line, anything else to the next
column. -/
def Position.advance (p : Position) (c : Char) : Position :=
  if c = '\n' then p.move_to_next_line else p.move_to_next_column

/-- Cursor over the source text (src/src/lexer/source.rs, struct Source): the
whole text, the not-yet-consumed suffix, and the current position. The Rust
struct keeps a Peekable char iterator; `rest` is that iterator's remaining
characters. -/
structure Source where
  src : List Char
  rest : List Char
  pos : Position
deriving DecidableEq, Repr

/-- Source::new. -/
def Source.ofString (s : String) : Source := ⟨s.data, s.data, .init⟩

/-- Source::next (the Iterator impl): yields the position before the advance
together with the consumed character. -/
def Source.next (s : Source) : Option ((Position × Char) × Source) :=
  match s.rest with
  | [] => none
  | c :: cs => some ((s.pos, c), ⟨s.src, cs, s.pos.advance c⟩)

/-- Source::next_if: peek, test the predicate, and only then consume. -/
def Source.next_if (p : Char → Bool) (s : Source) : Option ((Position × Char) × Source) :=
  match s.rest with
  | [] => none
  | c :: _ => if p c then s.next else none

/-- Source::next_if_character. -/
def Source.next_if_character (expected : Char) (s : Source) : Option ((Position × Char) × Source) :=
  s.next_if (fun c => c = expected)

/-- Run of conditional consumptions: models the Rust idiom
`while source.consume_if(p) \x7b\x7d` used by consume_whitespaces,
consume_comment and the literal lexers, walking the remaining characters
structurally. -/
def consume_while_aux (p : Char → Bool) : List Char → Position → List Char × Position
  | [], pos => ([], pos)
  | c :: cs, pos => if p c then consume_while_aux p cs (pos.advance c) else (c :: cs, pos)

/-- Source-level wrapper of consume_while_aux. -/
def Source.consume_while (p : Char → Bool) (s : Source) : Source :=
  ⟨s.src, (consume_while_aux p s.rest s.pos).1, (consume_while_aux p s.rest s.pos).2⟩

/-- Checked slice src[a..b] of the source text. Rust byte-slicing of a str
panics when a > b, when b exceeds the length, or when an index is not a
character boundary; on the single-byte (ASCII) texts the claims quantify over,
byte indices and character indices coincide, so the boundary condition reduces
to the range check made here. The result is `none` exactly when Rust would
panic. -/
def sliceChecked (s : List Char) (a b : Nat) : Option (List Char) :=
  if a ≤ b ∧ b ≤ s.length then some ((s.drop a).take (b - a)) else none

/-- Keywords (src/src/lexer/token.rs, enum Keyword). -/
inductive Keyword where
  | And | Class | Else | False | Fun | For | If | Nil | Or | Print
  | Return | Super | This | True | Var | While
deriving DecidableEq, Repr

/-- Keyword::try_from via strum's EnumString with lowercase spellings. -/
def Keyword.ofLexeme (s : List Char) : Option Keyword :=
  if s = "and".data then some .And
  else if s = "class".data then some .Class
  else if s = "else".data then some .Else
  else if s = "false".data then some .False
  else if s = "fun".data then some .Fun
  else if s = "for".data then some .For
  else if s = "if".data then some .If
  else if s = "nil".data then some .Nil
  else if s = "or".data then some .Or
  else if s = "print".data then some .Print
  else if s = "return".data then some .Return
  else if s = "super".data then some .Super
  else if s = "this".data then some .This
  else if s = "true".data then some .True
  else if s = "var".data then some .Var
  else if s = "while".data then some .While
  else none

/-- Token types (src/src/lexer/token.rs, enum TokenType). The Rust Number
variant stores the lexeme parsed as an OrderedFloat over f64; that value is a
function of the matched slice and no claim inspects it numerically, so the
payload kept here is the matched slice itself. -/
inductive TokenType where
  | OpenParanthesis
  | CloseParanthesis
  | OpenBrace
  | CloseBrace
  | Comma
  | Dot
  | Semicolon
  | Plus
  | Minus
  | Multiply
  | Divide
  | Assign
  | Not
  | NotEquals
  | Equals
  | GreaterThan
  | GreaterThanOrEquals
  | LessThan
  | LessThanOrEquals
  | String (value : List Char)
  | Number (lexeme : List Char)
  | Identifier (value : List Char)
  | Keyword (keyword : Keyword)
deriving DecidableEq, Repr

/-- Tokens (src/src/lexer/token.rs, struct Token). -/
structure Token where
  type : TokenType
  position : Position
deriving DecidableEq, Repr

/-- Lexical error kinds (src/src/lexer/mod.rs, enum ErrorType). -/
inductive LexErrorType where
  | InvalidCharacter
  | UnterminatedString
  | NumberHasNoFractionalPart
  | FailedParsingNumber
deriving DecidableEq, Repr

/-- Lexical errors (src/src/lexer/mod.rs, struct Error). -/
structure LexError where
  position : Position
  type : LexErrorType
deriving DecidableEq, Repr

/-- One item of the lexer's iterator: an Ok token, an Err lexical error, or
`panicked`, the marker for a Rust panic caused by an out-of-range source slice
(see sliceChecked). -/
inductive LexItem where
  | tok (t : Token)
  | err (e : LexError)
  | panicked
deriving DecidableEq, Repr

/-- Rust char::is_whitespace, restricted to the ASCII range the claims
quantify over (the White_Space code points below 0x80). -/
def rsIsWhitespace (c : Char) : Bool :=
  c = ' ' || c = '\t' || c = '\n' || c = '\x0b' || c = '\x0c' || c = '\r'

/-- Rust char::is_numeric at ASCII precision. -/
def rsIsNumeric (c : Char) : Bool := c.isDigit

/-- Rust char::is_alphabetic at ASCII precision. -/
def rsIsAlphabetic (c : Char) : Bool := c.isAlpha

/-- Rust char::is_alphanumeric at ASCII precision. -/
def rsIsAlphanumeric (c : Char) : Bool := c.isAlphanum

/-- Success predicate of str::parse::<f64> on the slices lex_number can
produce: the parse succeeds exactly when the slice is a digit run optionally
followed by a dot and a further digit run. -/
def parsesAsF64 (s : List Char) : Bool :=
  let intPart := s.takeWhile Char.isDigit
  let restPart := s.dropWhile Char.isDigit
  !intPart.isEmpty &&
    (restPart.isEmpty ||
      (restPart.head? = some '.' && !restPart.tail.isEmpty && restPart.tail.all Char.isDigit))

/-- Lexer::lex_string: consume the opening quote, consume up to the closing
quote, slice strictly between the quotes, then require the closing quote or
fail with UnterminatedString anchored at the opening quote. -/
def lex_string (s : Source) : Option (LexItem × Source) :=
  match s.next_if_character '"' with
  | none => none
  | some ((start, _), s1) =>
    let s2 := s1.consume_while (fun c => c != '"')
    match sliceChecked s2.src (start.index + 1) s2.pos.index with
    | none => some (.panicked, s2)
    | some value =>
      match s2.next_if_character '"' with
      | none => some (.err ⟨start, .UnterminatedString⟩, s2)
      | some (_, s3) => some (.tok ⟨.String value, start⟩, s3)

/-- Shared tail of Lexer::lex_number: slice the matched lexeme and parse it as
a floating-point number. -/
def finish_number (start : Position) (s : Source) : Option (LexItem × Source) :=
  match sliceChecked s.src start.index s.pos.index with
  | none => some (.panicked, s)
  | some value =>
    if parsesAsF64 value then some (.tok ⟨.Number value, start⟩, s)
    else some (.err ⟨start, .FailedParsingNumber⟩, s)

/-- Lexer::lex_number: integral digit run; if a dot follows it must be
followed by at least one digit, else NumberHasNoFractionalPart anchored at the
start; then the fractional digit run. -/
def lex_number (s : Source) : Option (LexItem × Source) :=
  match s.next_if rsIsNumeric with
  | none => none
  | some ((start, _), s1) =>
    let s2 := s1.consume_while rsIsNumeric
    match s2.next_if_character '.' with
    | some (_, s3) =>
      match s3.next_if rsIsNumeric with
      | none => some (.err ⟨start, .NumberHasNoFractionalPart⟩, s3)
      | some (_, s4) => finish_number start (s4.consume_while rsIsNumeric)
    | none => finish_number start s2

/-- Lexer::lex_keyword_or_identifier: an alphabetic head, an alphanumeric or
underscore run, then an exact match against the keyword set. -/
def lex_keyword_or_identifier (s : Source) : Option (LexItem × Source) :=
  match s.next_if rsIsAlphabetic with
  | none => none
  | some ((start, _), s1) =>
    let s2 := s1.consume_while (fun c => rsIsAlphanumeric c || c = '_')
    match sliceChecked s2.src start.index s2.pos.index with
    | none => some (.panicked, s2)
    | some value =>
      match Keyword.ofLexeme value with
      | some kw => some (.tok ⟨.Keyword kw, start⟩, s2)
      | none => some (.tok ⟨.Identifier value, start⟩, s2)

/-- Lexer::consume_comment: consume characters while they are not a newline. -/
def consume_comment (s : Source) : Source := s.consume_while (fun c => c != '\n')

/-- Comment-skipping loop at the top of Lexer::lex_symbol: take the next
character; while it is a slash and a second slash can be consumed, consume the
comment and take the next character again. The fuel argument only bounds the
recursion; every iteration consumes at least two characters, so the
`rest.length + 1` supplied by lex_symbol never runs out. -/
def symbol_loop : Nat → Source → Option ((Position × Char) × Source)
  | 0, _ => none
  | fuel + 1, s =>
    match s.next with
    | none => none
    | some ((position, character), s1) =>
      if character = '/' then
        match s1.next_if_character '/' with
        | some (_, s2) => symbol_loop fuel (consume_comment s2)
        | none => some ((position, character), s1)
      else some ((position, character), s1)

/-- Lexer::lex_symbol: skip comments, then map the character to its token
type, greedily consuming a second '=' after '!', '>', '<', '='. The '\x7d' arm
reproduces src/src/lexer/mod.rs line 188, which builds TokenType.OpenBrace. -/
def lex_symbol (s : Source) : Option (LexItem × Source) :=
  match symbol_loop (s.rest.length + 1) s with
  | none => none
  | some ((position, character), s1) =>
    match character with
    | '(' => some (.tok ⟨.OpenParanthesis, position⟩, s1)
    | ')' => some (.tok ⟨.CloseParanthesis, position⟩, s1)
    | '\x7b' => some (.tok ⟨.OpenBrace, position⟩, s1)
    | '\x7d' => some (.tok ⟨.OpenBrace, position⟩, s1)
    | ',' => some (.tok ⟨.Comma, position⟩, s1)
    | '.' => some (.tok ⟨.Dot, position⟩, s1)
    | ';' => some (.tok ⟨.Semicolon, position⟩, s1)
    | '+' => some (.tok ⟨.Plus, position⟩, s1)
    | '-' => some (.tok ⟨.Minus, position⟩, s1)
    | '*' => some (.tok ⟨.Multiply, position⟩, s1)
    | '/' => some (.tok ⟨.Divide, position⟩, s1)
    | '!' =>
      match s1.next_if_character '=' with
      | some (_, s2) => some (.tok ⟨.NotEquals, position⟩, s2)
      | none => some (.tok ⟨.Not, position⟩, s1)
    | '>' =>
      match s1.next_if_character '=' with
      | some (_, s2) => some (.tok ⟨.GreaterThanOrEquals, position⟩, s2)
      | none => some (.tok ⟨.GreaterThan, position⟩, s1)
    | '<' =>
      match s1.next_if_character '=' with
      | some (_, s2) => some (.tok ⟨.LessThanOrEquals, position⟩, s2)
      | none => some (.tok ⟨.LessThan, position⟩, s1)
    | '=' =>
      match s1.next_if_character '=' with
      | some (_, s2) => some (.tok ⟨.Equals, position⟩, s2)
      | none => some (.tok ⟨.Assign, position⟩, s1)
    | _ => some (.err ⟨position, .InvalidCharacter⟩, s1)

/-- Lexer::next (the Iterator impl): skip leading whitespace, peek, and
classify by the next character. -/
def lexer_next (s : Source) : Option (LexItem × Source) :=
  let s1 := s.consume_while rsIsWhitespace
  match s1.rest with
  | [] => none
  | c :: _ =>
    if c = '"' then lex_string s1
    else if rsIsNumeric c then lex_number s1
    else if rsIsAlphabetic c then lex_keyword_or_identifier s1
    else lex_symbol s1

/-- Fueled drain of the lexer iterator. Every yielded item consumes at least
one character (lexer_next_consumes below), so `rest.length + 1` fuel drains the
iterator completely (lexStream_unfold below). -/
def lexStreamF : Nat → Source → List LexItem
  | 0, _ => []
  | fuel + 1, s =>
    match lexer_next s with
    | none => []
    | some (item, s') => item :: lexStreamF fuel s'

/-- Complete drain of the lexer iterator from a source state. -/
def lexStream (s : Source) : List LexItem := lexStreamF (s.rest.length + 1) s

/-- Projection of a stream item onto its Ok token. -/
def LexItem.token? : LexItem → Option Token
  | .tok t => some t
  | _ => none

/-- Projection of a stream item onto its Err error. -/
def LexItem.error? : LexItem → Option LexError
  | .err e => some e
  | _ => none

/-- Lexer::lex: drain the iterator, partition successes and failures, return
all failures when any occurred and otherwise all tokens. The outer `none`
marks the run aborting on a Rust panic (claim C9 rules this out). -/
def lex (source : String) : Option (Except (List LexError) (List Token)) :=
  let items := lexStream (Source.ofString source)
  if LexItem.panicked ∈ items then none
  else
    let errors := items.filterMap LexItem.error?
    if errors.isEmpty then some (.ok (items.filterMap LexItem.token?))
    else some (.error errors)

/-- Expressions (src/src/ast/mod.rs): Literal, UnaryExpression and
BinaryExpression nodes. -/
inductive Expression where
  | Literal (token : Token)
  | UnaryExpression (operator : Token) (operand : Expression)
  | BinaryExpression (left_operand : Expression) (operator : Token) (right_operand : Expression)
deriving DecidableEq, Repr

/-- Syntactic error kinds (src/src/ast/parser/mod.rs, enum ErrorType). -/
inductive ParseErrorType where
  | ExpectedCloseParanthesis
  | ExpectedLiteral
deriving DecidableEq, Repr

/-- Syntactic errors (src/src/ast/parser/mod.rs, struct Error). -/
structure ParseError where
  position : Position
  type : ParseErrorType
deriving DecidableEq, Repr

/-- Parser state (src/src/ast/parser/mod.rs, struct Parser): the remaining
peekable token iterator, plus the `position` field that Parser::new sets to
the first token's position and that no parsing routine ever reassigns. -/
structure Parser where
  tokens : List Token
  position : Position
deriving DecidableEq, Repr

/-- Parser::new: yields no parser for an empty token sequence, otherwise
stores the tokens and the first token's position. -/
def Parser.new (tokens : List Token) : Option Parser :=
  match tokens with
  | [] => none
  | t :: _ => some ⟨tokens, t.position⟩

/-- Peekable::next_if on the token iterator: consume the next token only when
the predicate holds on it. -/
def Parser.next_if (pred : Token → Bool) (p : Parser) : Option (Token × Parser) :=
  match p.tokens with
  | [] => none
  | t :: ts => if pred t then some (t, ⟨ts, p.position⟩) else none

/-- Token::is_equality_operator (src/src/ast/parser/mod.rs line 201). -/
def Token.is_equality_operator (t : Token) : Bool :=
  match t.type with
  | .Equals | .NotEquals => true
  | _ => false

/-- Token::is_comparison_operator (src/src/ast/parser/mod.rs line 205). -/
def Token.is_comparison_operator (t : Token) : Bool :=
  match t.type with
  | .GreaterThan | .GreaterThanOrEquals | .LessThan | .LessThanOrEquals => true
  | _ => false

/-- Token::is_additive_operator (src/src/ast/parser/mod.rs line 215). -/
def Token.is_additive_operator (t : Token) : Bool :=
  match t.type with
  | .Plus | .Minus => true
  | _ => false

/-- Token::is_multiplicative_operator (src/src/ast/parser/mod.rs line 219). -/
def Token.is_multiplicative_operator (t : Token) : Bool :=
  match t.type with
  | .Multiply | .Divide => true
  | _ => false

/-- Token::is_unary_operator (src/src/ast/parser/mod.rs line 223). -/
def Token.is_unary_operator (t : Token) : Bool :=
  match t.type with
  | .Minus | .Not => true
  | _ => false

/-- Token::is_literal as defined next to the parser
(src/src/ast/parser/mod.rs lines 227-234): String, Number, or the keywords
true, false and nil. Identifier is not among the accepted kinds. -/
def Token.is_literal (t : Token) : Bool :=
  match t.type with
  | .String _ | .Number _ => true
  | .Keyword .True | .Keyword .False | .Keyword .Nil => true
  | _ => false

/-- Parser::parse_literal: consume the next token when it is a recognized
literal kind; otherwise fail with ExpectedLiteral anchored at the parser's
stored `position` field. -/
def parse_literal (p : Parser) : Except ParseError (Expression × Parser) :=
  match p.next_if Token.is_literal with
  | none => .error ⟨p.position, .ExpectedLiteral⟩
  | some (t, p1) => .ok (.Literal t, p1)

/- Recursive-descent routines of src/src/ast/parser/mod.rs. Each Rust
function becomes one Lean function; each `while let Some(operator) =
next_if(...)` loop becomes the companion `_loop` function folding new
BinaryExpression nodes onto the previous result. The Nat argument is fuel:
every function entry consumes one unit and the value `none` marks fuel
exhaustion, which Parser.parse's allowance (16 units per token plus slack,
ample because every cycle in the call graph consumes a token) makes
unreachable. -/
mutual

/-- Parser::parse_expression. -/
def parse_expression : Nat → Parser → Option (Except ParseError (Expression × Parser))
  | 0, _ => none
  | fuel + 1, p => parse_equality fuel p

def parse_equality : Nat → Parser → Option (Except ParseError (Expression × Parser))
  | 0, _ => none
  | fuel + 1, p =>
    match parse_comparison fuel p with
    | some (.ok (e, p1)) => equality_loop fuel e p1
    | other => other

def equality_loop : Nat → Expression → Parser → Option (Except ParseError (Expression × Parser))
  | 0, _, _ => none
  | fuel + 1, left_operand, p =>
    match p.next_if Token.is_equality_operator with
    | none => some (.ok (left_operand, p))
    | some (operator, p1) =>
      match parse_comparison fuel p1 with
      | some (.ok (right_operand, p2)) =>
        equality_loop fuel (.BinaryExpression left_operand operator right_operand) p2
      | other => other

def parse_comparison : Nat → Parser → Option (Except ParseError (Expression × Parser))
  | 0, _ => none
  | fuel + 1, p =>
    match parse_additive_expression fuel p with
    | some (.ok (e, p1)) => comparison_loop fuel e p1
    | other => other

def comparison_loop : Nat → Expression → Parser → Option (Except ParseError (Expression × Parser))
  | 0, _, _ => none
  | fuel + 1, left_operand, p =>
    match p.next_if Token.is_comparison_operator with
    | none => some (.ok (left_operand, p))
    | some (operator, p1) =>
      match parse_additive_expression fuel p1 with
      | some (.ok (right_operand, p2)) =>
        comparison_loop fuel (.BinaryExpression left_operand operator right_operand) p2
      | other => other

def parse_additive_expression : Nat → Parser → Option (Except ParseError (Expression × Parser))
  | 0, _ => none
  | fuel + 1, p =>
    match parse_multiplicative_expression fuel p with
    | some (.ok (e, p1)) => additive_loop fuel e p1
    | other => other

def additive_loop : Nat → Expression → Parser → Option (Except ParseError (Expression × Parser))
  | 0, _, _ => none
  | fuel + 1, left_operand, p =>
    match p.next_if Token.is_additive_operator with
    | none => some (.ok (left_operand, p))
    | some (operator, p1) =>
      match parse_multiplicative_expression fuel p1 with
      | some (.ok (right_operand, p2)) =>
        additive_loop fuel (.BinaryExpression left_operand operator right_operand) p2
      | other => other

def parse_multiplicative_expression : Nat → Parser → Option (Except ParseError (Expression × Parser))
  | 0, _ => none
  | fuel + 1, p =>
    match parse_unary_expression fuel p with
    | some (.ok (e, p1)) => multiplicative_loop fuel e p1
    | other => other

def multiplicative_loop : Nat → Expression → Parser → Option (Except ParseError (Expression × Parser))
  | 0, _, _ => none
  | fuel + 1, left_operand, p =>
    match p.next_if Token.is_multiplicative_operator with
    | none => some (.ok (left_operand, p))
    | some (operator, p1) =>
      match parse_unary_expression fuel p1 with
      | some (.ok (right_operand, p2)) =>
        multiplicative_loop fuel (.BinaryExpression left_operand operator right_operand) p2
      | other => other

def parse_unary_expression : Nat → Parser → Option (Except ParseError (Expression × Parser))
  | 0, _ => none
  | fuel + 1, p =>
    match p.next_if Token.is_unary_operator with
    | some (operator, p1) =>
      match parse_unary_expression fuel p1 with
      | some (.ok (operand, p2)) => some (.ok (.UnaryExpression operator operand, p2))
      | other => other
    | none => parse_paranthesized fuel p

def parse_paranthesized : Nat → Parser → Option (Except ParseError (Expression × Parser))
  | 0, _ => none
  | fuel + 1, p =>
    match p.next_if (fun t => t.type == TokenType.OpenParanthesis) with
    | some (open_paranthesis, p1) =>
      match parse_expression fuel p1 with
      | some (.ok (inner, p2)) =>
        match p2.next_if (fun t => t.type == TokenType.CloseParanthesis) with
        | none => some (.error ⟨open_paranthesis.position, .ExpectedCloseParanthesis⟩)
        | some (_, p3) => some (.ok (inner, p3))
      | other => other
    | none => some (parse_literal p)

end

/-- Parser::parse: parse one expression from the front of the token sequence.
No routine requires the iterator to be exhausted afterwards. The fuel
allowance of 16 units per token plus slack always suffices, because between
two fuel-consuming entries at the same tier at least one token is consumed
and one top-to-bottom tier descent costs at most 13 entries. -/
def Parser.parse (p : Parser) : Option (Except ParseError Expression) :=
  match parse_expression (16 * (p.tokens.length + 2)) p with
  | none => none
  | some (.error e) => some (.error e)
  | some (.ok (e, _)) => some (.ok e)

/-- Token sequence of an operator chain: operator, operand, operator, operand,
and so on. Pairs are (operator token, literal operand token). -/
def interleave : List (Token × Token) → List Token
  | [] => []
  | (op, l) :: rest => op :: l :: interleave rest

/-- Left-leaning tree a left-associative fold builds from a seed expression
and an operator chain: each new BinaryExpression takes the previous result as
its left operand. -/
def leftNest (e : Expression) : List (Token × Token) → Expression
  | [] => e
  | (op, l) :: rest => leftNest (.BinaryExpression e op (.Literal l)) rest

/-- Statement that the parser's next token, when present, fails a
predicate. -/
def headNot (pred : Token → Bool) (p : Parser) : Prop :=
  ∀ t, p.tokens.head? = some t → pred t = false

/-- Cursor well-formedness: the remaining characters are the suffix of the
source text that starts at the current index. Source::new establishes it and
every consumption preserves it. -/
def Inv (s : Source) : Prop :=
  s.pos.index ≤ s.src.length ∧ s.rest = s.src.drop s.pos.index

section ParserLemmas

lemma interleave_length (pairs : List (Token × Token)) :
    (interleave pairs).length = 2 * pairs.length := by
  induction pairs with
  | nil => rfl
  | cons q rest ih => cases q; simp [interleave, ih]; omega

lemma headNot_nil (pred : Token → Bool) (pos : Position) : headNot pred ⟨[], pos⟩ := by
  intro t h; simp at h

lemma next_if_none (pred : Token → Bool) (p : Parser) (h : headNot pred p) :
    p.next_if pred = none := by
  cases p with
  | mk ts pos =>
    cases ts with
    | nil => rfl
    | cons t ts' => simp [Parser.next_if, h t rfl]

lemma next_if_cons_true (pred : Token → Bool) (t : Token) (ts : List Token) (pos : Position)
    (h : pred t = true) :
    Parser.next_if pred ⟨t :: ts, pos⟩ = some (t, ⟨ts, pos⟩) := by
  simp [Parser.next_if, h]

lemma literal_not_unary (t : Token) (h : t.is_literal = true) : t.is_unary_operator = false := by
  cases t with
  | mk ty pos => cases ty <;> simp_all [Token.is_literal, Token.is_unary_operator]

lemma literal_not_open (t : Token) (h : t.is_literal = true) :
    (t.type == TokenType.OpenParanthesis) = false := by
  cases t with
  | mk ty pos => cases ty <;> simp_all [Token.is_literal]

lemma equality_op_facts (t : Token) (h : t.is_equality_operator = true) :
    t.is_comparison_operator = false ∧ t.is_additive_operator = false ∧
      t.is_multiplicative_operator = false := by
  cases t with
  | mk ty pos =>
    cases ty <;> simp_all [Token.is_equality_operator, Token.is_comparison_operator,
      Token.is_additive_operator, Token.is_multiplicative_operator]

lemma comparison_op_facts (t : Token) (h : t.is_comparison_operator = true) :
    t.is_additive_operator = false ∧ t.is_multiplicative_operator = false := by
  cases t with
  | mk ty pos =>
    cases ty <;> simp_all [Token.is_comparison_operator, Token.is_additive_operator,
      Token.is_multiplicative_operator]

lemma additive_op_facts (t : Token) (h : t.is_additive_operator = true) :
    t.is_multiplicative_operator = false := by
  cases t with
  | mk ty pos =>
    cases ty <;> simp_all [Token.is_additive_operator, Token.is_multiplicative_operator]

lemma parse_literal_cons (t : Token) (rest : List Token) (pos : Position)
    (h : t.is_literal = true) :
    parse_literal ⟨t :: rest, pos⟩ = .ok (.Literal t, ⟨rest, pos⟩) := by
  simp [parse_literal, next_if_cons_true _ _ _ _ h]

lemma paranthesized_literal (fuel : Nat) (t : Token) (rest : List Token) (pos : Position)
    (h : t.is_literal = true) :
    parse_paranthesized (fuel + 1) ⟨t :: rest, pos⟩ = some (.ok (.Literal t, ⟨rest, pos⟩)) := by
  simp [parse_paranthesized, Parser.next_if, literal_not_open t h, parse_literal_cons _ _ _ h]

lemma unary_literal (fuel : Nat) (t : Token) (rest : List Token) (pos : Position)
    (h : t.is_literal = true) :
    parse_unary_expression (fuel + 2) ⟨t :: rest, pos⟩ = some (.ok (.Literal t, ⟨rest, pos⟩)) := by
  simp [parse_unary_expression, Parser.next_if, literal_not_unary t h,
    paranthesized_literal _ _ _ _ h]

lemma multiplicative_loop_exit (fuel : Nat) (e : Expression) (p : Parser)
    (h : headNot Token.is_multiplicative_operator p) :
    multiplicative_loop (fuel + 1) e p = some (.ok (e, p)) := by
  simp [multiplicative_loop, next_if_none _ _ h]

lemma additive_loop_exit (fuel : Nat) (e : Expression) (p : Parser)
    (h : headNot Token.is_additive_operator p) :
    additive_loop (fuel + 1) e p = some (.ok (e, p)) := by
  simp [additive_loop, next_if_none _ _ h]

lemma comparison_loop_exit (fuel : Nat) (e : Expression) (p : Parser)
    (h : headNot Token.is_comparison_operator p) :
    comparison_loop (fuel + 1) e p = some (.ok (e, p)) := by
  simp [comparison_loop, next_if_none _ _ h]

lemma equality_loop_exit (fuel : Nat) (e : Expression) (p : Parser)
    (h : headNot Token.is_equality_operator p) :
    equality_loop (fuel + 1) e p = some (.ok (e, p)) := by
  simp [equality_loop, next_if_none _ _ h]

lemma multiplicative_literal (fuel : Nat) (t : Token) (rest : List Token) (pos : Position)
    (h : t.is_literal = true) (hm : headNot Token.is_multiplicative_operator ⟨rest, pos⟩) :
    parse_multiplicative_expression (fuel + 3) ⟨t :: rest, pos⟩ =
      some (.ok (.Literal t, ⟨rest, pos⟩)) := by
  have h1 := unary_literal fuel t rest pos h
  have h2 := multiplicative_loop_exit (fuel + 1) (.Literal t) ⟨rest, pos⟩ hm
  simp [parse_multiplicative_expression, h1, h2]

lemma additive_literal (fuel : Nat) (t : Token) (rest : List Token) (pos : Position)
    (h : t.is_literal = true) (hm : headNot Token.is_multiplicative_operator ⟨rest, pos⟩)
    (ha : headNot Token.is_additive_operator ⟨rest, pos⟩) :
    parse_additive_expression (fuel + 4) ⟨t :: rest, pos⟩ =
      some (.ok (.Literal t, ⟨rest, pos⟩)) := by
  have h1 := multiplicative_literal fuel t rest pos h hm
  have h2 := additive_loop_exit (fuel + 2) (.Literal t) ⟨rest, pos⟩ ha
  simp [parse_additive_expression, h1, h2]

lemma comparison_literal (fuel : Nat) (t : Token) (rest : List Token) (pos : Position)
    (h : t.is_literal = true) (hm : headNot Token.is_multiplicative_operator ⟨rest, pos⟩)
    (ha : headNot Token.is_additive_operator ⟨rest, pos⟩)
    (hc : headNot Token.is_comparison_operator ⟨rest, pos⟩) :
    parse_comparison (fuel + 5) ⟨t :: rest, pos⟩ = some (.ok (.Literal t, ⟨rest, pos⟩)) := by
  have h1 := additive_literal fuel t rest pos h hm ha
  have h2 := comparison_loop_exit (fuel + 3) (.Literal t) ⟨rest, pos⟩ hc
  simp [parse_comparison, h1, h2]

lemma headNot_interleave (pred : Token → Bool) (pairs : List (Token × Token)) (pos : Position)
    (h : ∀ q ∈ pairs, pred q.1 = false) : headNot pred ⟨interleave pairs, pos⟩ := by
  intro t ht
  cases pairs with
  | nil => simp [interleave] at ht
  | cons q rest =>
    cases q with
    | mk op l =>
      simp [interleave] at ht
      subst ht
      exact h (op, l) (by simp)

lemma mult_chain : ∀ (pairs : List (Token × Token)) (fuel : Nat) (acc : Expression)
      (pos : Position),
    (∀ q ∈ pairs, (q.1).is_multiplicative_operator = true ∧ (q.2).is_literal = true) →
    pairs.length + 3 ≤ fuel →
    multiplicative_loop fuel acc ⟨interleave pairs, pos⟩ =
      some (.ok (leftNest acc pairs, ⟨[], pos⟩))
  | [], fuel, acc, pos, hq, hf => by
    obtain ⟨f, rfl⟩ : ∃ f, fuel = f + 1 := ⟨fuel - 1, by omega⟩
    simpa [interleave, leftNest] using
      multiplicative_loop_exit f acc ⟨[], pos⟩ (headNot_nil _ _)
  | (op, l) :: rest, fuel, acc, pos, hq, hf => by
    obtain ⟨g, rfl⟩ : ∃ g, fuel = (g + 2) + 1 := ⟨fuel - 3, by simp at hf; omega⟩
    have hop : op.is_multiplicative_operator = true := (hq (op, l) (by simp)).1
    have hl : l.is_literal = true := (hq (op, l) (by simp)).2
    have h1 : Parser.next_if Token.is_multiplicative_operator
        ⟨interleave ((op, l) :: rest), pos⟩ = some (op, ⟨l :: interleave rest, pos⟩) := by
      simp [interleave, next_if_cons_true _ _ _ _ hop]
    have h2 := unary_literal g l (interleave rest) pos hl
    have h3 := mult_chain rest (g + 2) (.BinaryExpression acc op (.Literal l)) pos
      (fun q hm => hq q (by simp [hm])) (by simp at hf ⊢; omega)
    conv_lhs => rw [multiplicative_loop]
    simp only [h1, h2, h3, leftNest]

lemma additive_chain : ∀ (pairs : List (Token × Token)) (fuel : Nat) (acc : Expression)
      (pos : Position),
    (∀ q ∈ pairs, (q.1).is_additive_operator = true ∧ (q.2).is_literal = true) →
    pairs.length + 4 ≤ fuel →
    additive_loop fuel acc ⟨interleave pairs, pos⟩ =
      some (.ok (leftNest acc pairs, ⟨[], pos⟩))
  | [], fuel, acc, pos, hq, hf => by
    obtain ⟨f, rfl⟩ : ∃ f, fuel = f + 1 := ⟨fuel - 1, by omega⟩
    simpa [interleave, leftNest] using
      additive_loop_exit f acc ⟨[], pos⟩ (headNot_nil _ _)
  | (op, l) :: rest, fuel, acc, pos, hq, hf => by
    obtain ⟨g, rfl⟩ : ∃ g, fuel = (g + 3) + 1 := ⟨fuel - 4, by simp at hf; omega⟩
    have hop : op.is_additive_operator = true := (hq (op, l) (by simp)).1
    have hl : l.is_literal = true := (hq (op, l) (by simp)).2
    have h1 : Parser.next_if Token.is_additive_operator
        ⟨interleave ((op, l) :: rest), pos⟩ = some (op, ⟨l :: interleave rest, pos⟩) := by
      simp [interleave, next_if_cons_true _ _ _ _ hop]
    have hnm : headNot Token.is_multiplicative_operator ⟨interleave rest, pos⟩ :=
      headNot_interleave _ _ _ (fun q hm => additive_op_facts q.1 (hq q (by simp [hm])).1)
    have h2 := multiplicative_literal g l (interleave rest) pos hl hnm
    have h3 := additive_chain rest (g + 3) (.BinaryExpression acc op (.Literal l)) pos
      (fun q hm => hq q (by simp [hm])) (by simp at hf ⊢; omega)
    conv_lhs => rw [additive_loop]
    simp only [h1, h2, h3, leftNest]

lemma comparison_chain : ∀ (pairs : List (Token × Token)) (fuel : Nat) (acc : Expression)
      (pos : Position),
    (∀ q ∈ pairs, (q.1).is_comparison_operator = true ∧ (q.2).is_literal = true) →
    pairs.length + 5 ≤ fuel →
    comparison_loop fuel acc ⟨interleave pairs, pos⟩ =
      some (.ok (leftNest acc pairs, ⟨[], pos⟩))
  | [], fuel, acc, pos, hq, hf => by
    obtain ⟨f, rfl⟩ : ∃ f, fuel = f + 1 := ⟨fuel - 1, by omega⟩
    simpa [interleave, leftNest] using
      comparison_loop_exit f acc ⟨[], pos⟩ (headNot_nil _ _)
  | (op, l) :: rest, fuel, acc, pos, hq, hf => by
    obtain ⟨g, rfl⟩ : ∃ g, fuel = (g + 4) + 1 := ⟨fuel - 5, by simp at hf; omega⟩
    have hop : op.is_comparison_operator = true := (hq (op, l) (by simp)).1
    have hl : l.is_literal = true := (hq (op, l) (by simp)).2
    have h1 : Parser.next_if Token.is_comparison_operator
        ⟨interleave ((op, l) :: rest), pos⟩ = some (op, ⟨l :: interleave rest, pos⟩) := by
      simp [interleave, next_if_cons_true _ _ _ _ hop]
    have hnm : headNot Token.is_multiplicative_operator ⟨interleave rest, pos⟩ :=
      headNot_interleave _ _ _
        (fun q hm => (comparison_op_facts q.1 (hq q (by simp [hm])).1).2)
    have hna : headNot Token.is_additive_operator ⟨interleave rest, pos⟩ :=
      headNot_interleave _ _ _
        (fun q hm => (comparison_op_facts q.1 (hq q (by simp [hm])).1).1)
    have h2 := additive_literal g l (interleave rest) pos hl hnm hna
    have h3 := comparison_chain rest (g + 4) (.BinaryExpression acc op (.Literal l)) pos
      (fun q hm => hq q (by simp [hm])) (by simp at hf ⊢; omega)
    conv_lhs => rw [comparison_loop]
    simp only [h1, h2, h3, leftNest]

lemma equality_chain : ∀ (pairs : List (Token × Token)) (fuel : Nat) (acc : Expression)
      (pos : Position),
    (∀ q ∈ pairs, (q.1).is_equality_operator = true ∧ (q.2).is_literal = true) →
    pairs.length + 6 ≤ fuel →
    equality_loop fuel acc ⟨interleave pairs, pos⟩ =
      some (.ok (leftNest acc pairs, ⟨[], pos⟩))
  | [], fuel, acc, pos, hq, hf => by
    obtain ⟨f, rfl⟩ : ∃ f, fuel = f + 1 := ⟨fuel - 1, by omega⟩
    simpa [interleave, leftNest] using
      equality_loop_exit f acc ⟨[], pos⟩ (headNot_nil _ _)
  | (op, l) :: rest, fuel, acc, pos, hq, hf => by
    obtain ⟨g, rfl⟩ : ∃ g, fuel = (g + 5) + 1 := ⟨fuel - 6, by simp at hf; omega⟩
    have hop : op.is_equality_operator = true := (hq (op, l) (by simp)).1
    have hl : l.is_literal = true := (hq (op, l) (by simp)).2
    have h1 : Parser.next_if Token.is_equality_operator
        ⟨interleave ((op, l) :: rest), pos⟩ = some (op, ⟨l :: interleave rest, pos⟩) := by
      simp [interleave, next_if_cons_true _ _ _ _ hop]
    have hnm : headNot Token.is_multiplicative_operator ⟨interleave rest, pos⟩ :=
      headNot_interleave _ _ _
        (fun q hm => (equality_op_facts q.1 (hq q (by simp [hm])).1).2.2)
    have hna : headNot Token.is_additive_operator ⟨interleave rest, pos⟩ :=
      headNot_interleave _ _ _
        (fun q hm => (equality_op_facts q.1 (hq q (by simp [hm])).1).2.1)
    have hnc : headNot Token.is_comparison_operator ⟨interleave rest, pos⟩ :=
      headNot_interleave _ _ _
        (fun q hm => (equality_op_facts q.1 (hq q (by simp [hm])).1).1)
    have h2 := comparison_literal g l (interleave rest) pos hl hnm hna hnc
    have h3 := equality_chain rest (g + 5) (.BinaryExpression acc op (.Literal l)) pos
      (fun q hm => hq q (by simp [hm])) (by simp at hf ⊢; omega)
    conv_lhs => rw [equality_loop]
    simp only [h1, h2, h3, leftNest]

lemma multiplicative_full (g : Nat) (a : Token) (pairs : List (Token × Token)) (ppos : Position)
    (ha : a.is_literal = true)
    (hq : ∀ q ∈ pairs, (q.1).is_multiplicative_operator = true ∧ (q.2).is_literal = true)
    (hg : pairs.length + 1 ≤ g) :
    parse_expression (g + 7) ⟨a :: interleave pairs, ppos⟩ =
      some (.ok (leftNest (.Literal a) pairs, ⟨[], ppos⟩)) := by
  have h1 := unary_literal g a (interleave pairs) ppos ha
  have h2 := mult_chain pairs (g + 2) (.Literal a) ppos hq (by omega)
  have h3 := additive_loop_exit (g + 2) (leftNest (.Literal a) pairs) ⟨[], ppos⟩
    (headNot_nil _ _)
  have h4 := comparison_loop_exit (g + 3) (leftNest (.Literal a) pairs) ⟨[], ppos⟩
    (headNot_nil _ _)
  have h5 := equality_loop_exit (g + 4) (leftNest (.Literal a) pairs) ⟨[], ppos⟩
    (headNot_nil _ _)
  simp [parse_expression, parse_equality, parse_comparison, parse_additive_expression,
    parse_multiplicative_expression, h1, h2, h3, h4, h5]

lemma additive_full (g : Nat) (a : Token) (pairs : List (Token × Token)) (ppos : Position)
    (ha : a.is_literal = true)
    (hq : ∀ q ∈ pairs, (q.1).is_additive_operator = true ∧ (q.2).is_literal = true)
    (hg : pairs.length + 1 ≤ g) :
    parse_expression (g + 7) ⟨a :: interleave pairs, ppos⟩ =
      some (.ok (leftNest (.Literal a) pairs, ⟨[], ppos⟩)) := by
  have hnm : headNot Token.is_multiplicative_operator ⟨interleave pairs, ppos⟩ :=
    headNot_interleave _ _ _ (fun q hm => additive_op_facts q.1 (hq q hm).1)
  have h1 := multiplicative_literal g a (interleave pairs) ppos ha hnm
  have h2 := additive_chain pairs (g + 3) (.Literal a) ppos hq (by omega)
  have h4 := comparison_loop_exit (g + 3) (leftNest (.Literal a) pairs) ⟨[], ppos⟩
    (headNot_nil _ _)
  have h5 := equality_loop_exit (g + 4) (leftNest (.Literal a) pairs) ⟨[], ppos⟩
    (headNot_nil _ _)
  simp [parse_expression, parse_equality, parse_comparison, parse_additive_expression,
    h1, h2, h4, h5]

lemma comparison_full (g : Nat) (a : Token) (pairs : List (Token × Token)) (ppos : Position)
    (ha : a.is_literal = true)
    (hq : ∀ q ∈ pairs, (q.1).is_comparison_operator = true ∧ (q.2).is_literal = true)
    (hg : pairs.length + 1 ≤ g) :
    parse_expression (g + 7) ⟨a :: interleave pairs, ppos⟩ =
      some (.ok (leftNest (.Literal a) pairs, ⟨[], ppos⟩)) := by
  have hnm : headNot Token.is_multiplicative_operator ⟨interleave pairs, ppos⟩ :=
    headNot_interleave _ _ _ (fun q hm => (comparison_op_facts q.1 (hq q hm).1).2)
  have hna : headNot Token.is_additive_operator ⟨interleave pairs, ppos⟩ :=
    headNot_interleave _ _ _ (fun q hm => (comparison_op_facts q.1 (hq q hm).1).1)
  have h1 := additive_literal g a (interleave pairs) ppos ha hnm hna
  have h2 := comparison_chain pairs (g + 4) (.Literal a) ppos hq (by omega)
  have h5 := equality_loop_exit (g + 4) (leftNest (.Literal a) pairs) ⟨[], ppos⟩
    (headNot_nil _ _)
  simp [parse_expression, parse_equality, parse_comparison, h1, h2, h5]

lemma equality_full (g : Nat) (a : Token) (pairs : List (Token × Token)) (ppos : Position)
    (ha : a.is_literal = true)
    (hq : ∀ q ∈ pairs, (q.1).is_equality_operator = true ∧ (q.2).is_literal = true)
    (hg : pairs.length + 1 ≤ g) :
    parse_expression (g + 7) ⟨a :: interleave pairs, ppos⟩ =
      some (.ok (leftNest (.Literal a) pairs, ⟨[], ppos⟩)) := by
  have hnm : headNot Token.is_multiplicative_operator ⟨interleave pairs, ppos⟩ :=
    headNot_interleave _ _ _ (fun q hm => (equality_op_facts q.1 (hq q hm).1).2.2)
  have hna : headNot Token.is_additive_operator ⟨interleave pairs, ppos⟩ :=
    headNot_interleave _ _ _ (fun q hm => (equality_op_facts q.1 (hq q hm).1).2.1)
  have hnc : headNot Token.is_comparison_operator ⟨interleave pairs, ppos⟩ :=
    headNot_interleave _ _ _ (fun q hm => (equality_op_facts q.1 (hq q hm).1).1)
  have h1 := comparison_literal g a (interleave pairs) ppos ha hnm hna hnc
  have h2 := equality_chain pairs (g + 5) (.Literal a) ppos hq (by omega)
  simp [parse_expression, parse_equality, h1, h2]

lemma parse_wrap (a : Token) (pairs : List (Token × Token)) (ppos : Position) (e : Expression)
    (h : ∀ g, pairs.length + 1 ≤ g →
      parse_expression (g + 7) ⟨a :: interleave pairs, ppos⟩ = some (.ok (e, ⟨[], ppos⟩))) :
    Parser.parse ⟨a :: interleave pairs, ppos⟩ = some (.ok e) := by
  have hlen : 16 * ((Parser.mk (a :: interleave pairs) ppos).tokens.length + 2)
      = (32 * pairs.length + 41) + 7 := by
    simp [interleave_length]
    omega
  unfold Parser.parse
  rw [hlen, h (32 * pairs.length + 41) (by omega)]

end ParserLemmas

section LexerLemmas

lemma advance_index (pos : Position) (c : Char) : (pos.advance c).index = pos.index + 1 := by
  unfold Position.advance Position.move_to_next_line Position.move_to_next_column
  split <;> rfl

lemma drop_cons_facts (src : List Char) (i : Nat) (c : Char) (cs : List Char)
    (h : src.drop i = c :: cs) : i + 1 ≤ src.length ∧ src.drop (i + 1) = cs := by
  constructor
  · have hl := congrArg List.length h
    simp only [List.length_drop, List.length_cons] at hl
    omega
  · have h2 := congrArg (List.drop 1) h
    rw [List.drop_drop] at h2
    simpa [Nat.add_comm] using h2

lemma next_some_facts (s : Source) (pc : Position × Char) (s' : Source)
    (h : s.next = some (pc, s')) :
    s'.src = s.src ∧ s'.rest.length + 1 = s.rest.length ∧
      s'.pos.index = s.pos.index + 1 ∧ pc.1 = s.pos ∧ (Inv s → Inv s') := by
  unfold Source.next at h
  cases hr : s.rest with
  | nil => rw [hr] at h; simp at h
  | cons c cs =>
    rw [hr] at h
    simp only [Option.some.injEq, Prod.mk.injEq] at h
    obtain ⟨hpc, hs⟩ := h
    subst hs
    refine ⟨rfl, by simp [hr], advance_index _ _, hpc.symm ▸ rfl, ?_⟩
    · intro hInv
      obtain ⟨hb, hd⟩ := hInv
      rw [hr] at hd
      obtain ⟨hb2, hd2⟩ := drop_cons_facts s.src s.pos.index c cs hd.symm
      exact ⟨by simp [advance_index]; omega, by simp [advance_index, hd2.symm]⟩

lemma next_if_some (p : Char → Bool) (s : Source) (pc : Position × Char) (s' : Source)
    (h : s.next_if p = some (pc, s')) : s.next = some (pc, s') := by
  unfold Source.next_if at h
  split at h
  · simp at h
  · split at h
    · exact h
    · simp at h

lemma next_if_character_some (c : Char) (s : Source) (pc : Position × Char) (s' : Source)
    (h : s.next_if_character c = some (pc, s')) : s.next = some (pc, s') :=
  next_if_some _ _ _ _ h

lemma consume_while_aux_facts (p : Char → Bool) : ∀ (l : List Char) (pos : Position),
    (consume_while_aux p l pos).1.length ≤ l.length ∧
    pos.index ≤ (consume_while_aux p l pos).2.index ∧
    ∀ src : List Char, pos.index ≤ src.length → l = src.drop pos.index →
      ((consume_while_aux p l pos).2.index ≤ src.length ∧
        (consume_while_aux p l pos).1 = src.drop (consume_while_aux p l pos).2.index)
  | [], pos => by
    refine ⟨by simp [consume_while_aux], by simp [consume_while_aux], ?_⟩
    intro src hb hd
    simp only [consume_while_aux]
    exact ⟨hb, hd⟩
  | c :: cs, pos => by
    by_cases hc : p c
    · have ih := consume_while_aux_facts p cs (pos.advance c)
      refine ⟨?_, ?_, ?_⟩
      · simp only [consume_while_aux, hc, if_true, List.length_cons]
        omega
      · simp only [consume_while_aux, hc, if_true]
        have := ih.2.1
        rw [advance_index] at this
        omega
      · intro src hb hd
        simp only [consume_while_aux, hc, if_true]
        obtain ⟨hb2, hd2⟩ := drop_cons_facts src pos.index c cs hd.symm
        exact ih.2.2 src (by rw [advance_index]; omega) (by rw [advance_index, hd2])
    · refine ⟨by simp [consume_while_aux, hc], by simp [consume_while_aux, hc], ?_⟩
      intro src hb hd
      simp only [consume_while_aux, hc, if_false]
      exact ⟨hb, hd⟩

lemma consume_while_facts (p : Char → Bool) (s : Source) :
    (s.consume_while p).src = s.src ∧
    (s.consume_while p).rest.length ≤ s.rest.length ∧
    s.pos.index ≤ (s.consume_while p).pos.index ∧
    (Inv s → Inv (s.consume_while p)) := by
  have h := consume_while_aux_facts p s.rest s.pos
  refine ⟨rfl, h.1, h.2.1, ?_⟩
  intro hInv
  obtain ⟨hb, hd⟩ := hInv
  have h3 := h.2.2 s.src hb hd
  exact ⟨h3.1, h3.2⟩

lemma inv_next_if (p : Char → Bool) (s : Source) (pc : Position × Char) (s' : Source)
    (h : s.next_if p = some (pc, s')) (hInv : Inv s) : Inv s' :=
  (next_some_facts s pc s' (next_if_some p s pc s' h)).2.2.2.2 hInv

lemma length_next_if (p : Char → Bool) (s : Source) (pc : Position × Char) (s' : Source)
    (h : s.next_if p = some (pc, s')) : s'.rest.length + 1 = s.rest.length :=
  (next_some_facts s pc s' (next_if_some p s pc s' h)).2.1

lemma lex_string_facts (s : Source) (it : LexItem) (s' : Source)
    (h : lex_string s = some (it, s')) :
    s'.rest.length < s.rest.length ∧ (Inv s → it ≠ .panicked ∧ Inv s') := by
  unfold lex_string at h
  cases hq : s.next_if_character '"' with
  | none => rw [hq] at h; exact Option.noConfusion h
  | some v =>
    obtain ⟨⟨start, c0⟩, s1⟩ := v
    simp only [hq] at h
    have hn := next_some_facts s (start, c0) s1 (next_if_character_some _ _ _ _ hq)
    have hcw := consume_while_facts (fun c => c != '"') s1
    have hstart : start = s.pos := hn.2.2.2.1
    cases hsl : sliceChecked (s1.consume_while (fun c => c != '"')).src (start.index + 1)
        (s1.consume_while (fun c => c != '"')).pos.index with
    | none =>
      simp only [hsl] at h
      obtain ⟨h1, h2⟩ := Prod.mk.injEq .. ▸ Option.some.injEq .. ▸ h
      subst h2
      refine ⟨by omega, ?_⟩
      intro hInv
      exfalso
      have hInv2 : Inv (s1.consume_while (fun c => c != '"')) :=
        hcw.2.2.2 (hn.2.2.2.2 hInv)
      have hcond : start.index + 1 ≤ (s1.consume_while (fun c => c != '"')).pos.index ∧
          (s1.consume_while (fun c => c != '"')).pos.index ≤
            (s1.consume_while (fun c => c != '"')).src.length := by
        refine ⟨?_, hInv2.1⟩
        have h5 := hcw.2.2.1
        have h6 := hn.2.2.1
        rw [hstart]
        omega
      unfold sliceChecked at hsl
      rw [if_pos hcond] at hsl
      simp at hsl
    | some value =>
      simp only [hsl] at h
      cases hq2 : (s1.consume_while (fun c => c != '"')).next_if_character '"' with
      | none =>
        simp only [hq2] at h
        obtain ⟨h1, h2⟩ := Prod.mk.injEq .. ▸ Option.some.injEq .. ▸ h
        subst h2
        refine ⟨by omega, ?_⟩
        intro hInv
        exact ⟨by rw [← h1]; simp, hcw.2.2.2 (hn.2.2.2.2 hInv)⟩
      | some v2 =>
        obtain ⟨pc2, s3⟩ := v2
        simp only [hq2] at h
        have hn2 := next_some_facts _ pc2 s3 (next_if_character_some _ _ _ _ hq2)
        obtain ⟨h1, h2⟩ := Prod.mk.injEq .. ▸ Option.some.injEq .. ▸ h
        subst h2
        refine ⟨by omega, ?_⟩
        intro hInv
        exact ⟨by rw [← h1]; simp, hn2.2.2.2.2 (hcw.2.2.2 (hn.2.2.2.2 hInv))⟩

lemma finish_number_facts (start : Position) (s0 : Source) (it : LexItem) (s' : Source)
    (h : finish_number start s0 = some (it, s')) :
    s' = s0 ∧ (start.index ≤ s0.pos.index → Inv s0 → it ≠ .panicked) := by
  unfold finish_number at h
  cases hsl : sliceChecked s0.src start.index s0.pos.index with
  | none =>
    simp only [hsl] at h
    obtain ⟨h1, h2⟩ := Prod.mk.injEq .. ▸ Option.some.injEq .. ▸ h
    subst h2
    refine ⟨rfl, ?_⟩
    intro hle hInv
    exfalso
    unfold sliceChecked at hsl
    rw [if_pos ⟨hle, hInv.1⟩] at hsl
    simp at hsl
  | some value =>
    simp only [hsl] at h
    split at h <;>
    · obtain ⟨h1, h2⟩ := Prod.mk.injEq .. ▸ Option.some.injEq .. ▸ h
      subst h2
      exact ⟨rfl, fun _ _ => by rw [← h1]; simp⟩

lemma lex_number_facts (s : Source) (it : LexItem) (s' : Source)
    (h : lex_number s = some (it, s')) :
    s'.rest.length < s.rest.length ∧ (Inv s → it ≠ .panicked ∧ Inv s') := by
  unfold lex_number at h
  cases hq : s.next_if rsIsNumeric with
  | none => rw [hq] at h; exact Option.noConfusion h
  | some v =>
    obtain ⟨⟨start, c0⟩, s1⟩ := v
    simp only [hq] at h
    have hn := next_some_facts s (start, c0) s1 (next_if_some _ _ _ _ hq)
    have hcw := consume_while_facts rsIsNumeric s1
    have hstart : start = s.pos := hn.2.2.2.1
    cases hq3 : (s1.consume_while rsIsNumeric).next_if_character '.' with
    | none =>
      simp only [hq3] at h
      obtain ⟨hfs, hfp⟩ := finish_number_facts start (s1.consume_while rsIsNumeric) it s' h
      subst hfs
      refine ⟨by omega, ?_⟩
      intro hInv
      have hInv2 : Inv (s1.consume_while rsIsNumeric) := hcw.2.2.2 (hn.2.2.2.2 hInv)
      refine ⟨hfp ?_ hInv2, hInv2⟩
      have h5 := hcw.2.2.1
      have h6 := hn.2.2.1
      rw [hstart]
      omega
    | some v3 =>
      obtain ⟨pc3, s3⟩ := v3
      simp only [hq3] at h
      have hn3 := next_some_facts _ pc3 s3 (next_if_character_some _ _ _ _ hq3)
      cases hq4 : s3.next_if rsIsNumeric with
      | none =>
        simp only [hq4] at h
        obtain ⟨h1, h2⟩ := Prod.mk.injEq .. ▸ Option.some.injEq .. ▸ h
        subst h2
        refine ⟨by omega, ?_⟩
        intro hInv
        exact ⟨by rw [← h1]; simp, hn3.2.2.2.2 (hcw.2.2.2 (hn.2.2.2.2 hInv))⟩
      | some v4 =>
        obtain ⟨pc4, s4⟩ := v4
        simp only [hq4] at h
        have hn4 := next_some_facts _ pc4 s4 (next_if_some _ _ _ _ hq4)
        have hcw5 := consume_while_facts rsIsNumeric s4
        obtain ⟨hfs, hfp⟩ := finish_number_facts start (s4.consume_while rsIsNumeric) it s' h
        subst hfs
        refine ⟨by omega, ?_⟩
        intro hInv
        have hInv5 : Inv (s4.consume_while rsIsNumeric) :=
          hcw5.2.2.2 (hn4.2.2.2.2 (hn3.2.2.2.2 (hcw.2.2.2 (hn.2.2.2.2 hInv))))
        refine ⟨hfp ?_ hInv5, hInv5⟩
        have h5 := hcw.2.2.1
        have h6 := hn.2.2.1
        have h7 := hn3.2.2.1
        have h8 := hn4.2.2.1
        have h9 := hcw5.2.2.1
        rw [hstart]
        omega

lemma lex_keyword_or_identifier_facts (s : Source) (it : LexItem) (s' : Source)
    (h : lex_keyword_or_identifier s = some (it, s')) :
    s'.rest.length < s.rest.length ∧ (Inv s → it ≠ .panicked ∧ Inv s') := by
  unfold lex_keyword_or_identifier at h
  cases hq : s.next_if rsIsAlphabetic with
  | none => rw [hq] at h; exact Option.noConfusion h
  | some v =>
    obtain ⟨⟨start, c0⟩, s1⟩ := v
    simp only [hq] at h
    have hn := next_some_facts s (start, c0) s1 (next_if_some _ _ _ _ hq)
    have hcw := consume_while_facts (fun c => rsIsAlphanumeric c || c = '_') s1
    have hstart : start = s.pos := hn.2.2.2.1
    cases hsl : sliceChecked (s1.consume_while (fun c => rsIsAlphanumeric c || c = '_')).src
        start.index (s1.consume_while (fun c => rsIsAlphanumeric c || c = '_')).pos.index with
    | none =>
      simp only [hsl] at h
      obtain ⟨h1, h2⟩ := Prod.mk.injEq .. ▸ Option.some.injEq .. ▸ h
      subst h2
      refine ⟨by omega, ?_⟩
      intro hInv
      exfalso
      have hInv2 : Inv (s1.consume_while (fun c => rsIsAlphanumeric c || c = '_')) :=
        hcw.2.2.2 (hn.2.2.2.2 hInv)
      have hcond : start.index ≤
          (s1.consume_while (fun c => rsIsAlphanumeric c || c = '_')).pos.index ∧
          (s1.consume_while (fun c => rsIsAlphanumeric c || c = '_')).pos.index ≤
            (s1.consume_while (fun c => rsIsAlphanumeric c || c = '_')).src.length := by
        refine ⟨?_, hInv2.1⟩
        have h5 := hcw.2.2.1
        have h6 := hn.2.2.1
        rw [hstart]
        omega
      unfold sliceChecked at hsl
      rw [if_pos hcond] at hsl
      simp at hsl
    | some value =>
      simp only [hsl] at h
      have hInvR : Inv s → Inv (s1.consume_while (fun c => rsIsAlphanumeric c || c = '_')) :=
        fun hInv => hcw.2.2.2 (hn.2.2.2.2 hInv)
      cases hk : Keyword.ofLexeme value with
      | some kw =>
        simp only [hk] at h
        obtain ⟨h1, h2⟩ := Prod.mk.injEq .. ▸ Option.some.injEq .. ▸ h
        subst h2
        exact ⟨by omega, fun hInv => ⟨by rw [← h1]; simp, hInvR hInv⟩⟩
      | none =>
        simp only [hk] at h
        obtain ⟨h1, h2⟩ := Prod.mk.injEq .. ▸ Option.some.injEq .. ▸ h
        subst h2
        exact ⟨by omega, fun hInv => ⟨by rw [← h1]; simp, hInvR hInv⟩⟩

lemma symbol_loop_facts : ∀ (fuel : Nat) (s : Source) (pc : Position × Char) (s1 : Source),
    symbol_loop fuel s = some (pc, s1) →
    s1.rest.length < s.rest.length ∧ (Inv s → Inv s1)
  | 0, s, pc, s1, h => by simp [symbol_loop] at h
  | fuel + 1, s, pc, s1, h => by
    unfold symbol_loop at h
    cases hn : s.next with
    | none => rw [hn] at h; exact Option.noConfusion h
    | some v =>
      obtain ⟨⟨position, character⟩, s1'⟩ := v
      simp only [hn] at h
      have hf := next_some_facts s (position, character) s1' hn
      by_cases hc : character = '/'
      · rw [if_pos hc] at h
        cases hq2 : s1'.next_if_character '/' with
        | some v2 =>
          obtain ⟨pc2, s2⟩ := v2
          rw [hq2] at h
          simp only [consume_comment] at h
          have hf2 := next_some_facts s1' pc2 s2 (next_if_character_some _ _ _ _ hq2)
          have hcc := consume_while_facts (fun c => c != '\n') s2
          have ih := symbol_loop_facts fuel (s2.consume_while (fun c => c != '\n')) pc s1 h
          refine ⟨by omega, ?_⟩
          intro hInv
          exact ih.2 (hcc.2.2.2 (hf2.2.2.2.2 (hf.2.2.2.2 hInv)))
        | none =>
          rw [hq2] at h
          obtain ⟨h1, h2⟩ := Prod.mk.injEq .. ▸ Option.some.injEq .. ▸ h
          subst h2
          exact ⟨by omega, fun hInv => hf.2.2.2.2 hInv⟩
      · rw [if_neg hc] at h
        obtain ⟨h1, h2⟩ := Prod.mk.injEq .. ▸ Option.some.injEq .. ▸ h
        subst h2
        exact ⟨by omega, fun hInv => hf.2.2.2.2 hInv⟩

lemma lex_symbol_facts (s : Source) (it : LexItem) (s' : Source)
    (h : lex_symbol s = some (it, s')) :
    s'.rest.length < s.rest.length ∧ (Inv s → it ≠ .panicked ∧ Inv s') := by
  unfold lex_symbol at h
  cases hq : symbol_loop (s.rest.length + 1) s with
  | none => rw [hq] at h; exact Option.noConfusion h
  | some v =>
    obtain ⟨⟨position, character⟩, s1⟩ := v
    simp only [hq] at h
    have hsl := symbol_loop_facts (s.rest.length + 1) s (position, character) s1 hq
    split at h
    all_goals try
      (obtain ⟨h1, h2⟩ := Prod.mk.injEq .. ▸ Option.some.injEq .. ▸ h
       subst h2
       exact ⟨by omega, fun hInv => ⟨by rw [← h1]; simp, hsl.2 hInv⟩⟩)
    all_goals
      (cases hq2 : s1.next_if_character '=' with
        | some v2 =>
          obtain ⟨pc2, s2⟩ := v2
          rw [hq2] at h
          have hn2 := next_some_facts s1 pc2 s2 (next_if_character_some _ _ _ _ hq2)
          obtain ⟨h1, h2⟩ := Prod.mk.injEq .. ▸ Option.some.injEq .. ▸ h
          subst h2
          exact ⟨by omega, fun hInv => ⟨by rw [← h1]; simp, hn2.2.2.2.2 (hsl.2 hInv)⟩⟩
        | none =>
          rw [hq2] at h
          obtain ⟨h1, h2⟩ := Prod.mk.injEq .. ▸ Option.some.injEq .. ▸ h
          subst h2
          exact ⟨by omega, fun hInv => ⟨by rw [← h1]; simp, hsl.2 hInv⟩⟩)

lemma lexer_next_facts (s : Source) (it : LexItem) (s' : Source)
    (h : lexer_next s = some (it, s')) :
    s'.rest.length < s.rest.length ∧ (Inv s → it ≠ .panicked ∧ Inv s') := by
  unfold lexer_next at h
  have hcw := consume_while_facts rsIsWhitespace s
  cases hr : (s.consume_while rsIsWhitespace).rest with
  | nil =>
    simp only [hr] at h
    exact Option.noConfusion h
  | cons c cs =>
    simp only [hr] at h
    have step : ∀ f : Source → Option (LexItem × Source),
        (∀ t u v, f t = some (u, v) →
          v.rest.length < t.rest.length ∧ (Inv t → u ≠ .panicked ∧ Inv v)) →
        f (s.consume_while rsIsWhitespace) = some (it, s') →
        s'.rest.length < s.rest.length ∧ (Inv s → it ≠ .panicked ∧ Inv s') := by
      intro f hfacts hcall
      have hx := hfacts _ _ _ hcall
      have h2 := hcw.2.1
      exact ⟨by omega, fun hInv => hx.2 (hcw.2.2.2 hInv)⟩
    split at h
    · exact step _ lex_string_facts h
    · split at h
      · exact step _ lex_number_facts h
      · split at h
        · exact step _ lex_keyword_or_identifier_facts h
        · exact step _ lex_symbol_facts h

lemma lexStreamF_no_panic : ∀ (fuel : Nat) (s : Source), Inv s →
    LexItem.panicked ∉ lexStreamF fuel s
  | 0, s, _ => by simp [lexStreamF]
  | fuel + 1, s, hInv => by
    unfold lexStreamF
    cases hn : lexer_next s with
    | none => simp
    | some v =>
      obtain ⟨it, s'⟩ := v
      have hf := lexer_next_facts s it s' hn
      have ih := lexStreamF_no_panic fuel s' ((hf.2 hInv).2)
      simp only [List.mem_cons, not_or]
      exact ⟨fun hcontra => (hf.2 hInv).1 hcontra.symm, ih⟩

lemma lexStreamF_congr : ∀ (f1 f2 : Nat) (s : Source),
    s.rest.length < f1 → s.rest.length < f2 → lexStreamF f1 s = lexStreamF f2 s
  | 0, _, s, h1, _ => absurd h1 (by omega)
  | _ + 1, 0, s, _, h2 => absurd h2 (by omega)
  | f1 + 1, f2 + 1, s, h1, h2 => by
    cases hn : lexer_next s with
    | none => simp only [lexStreamF, hn]
    | some v =>
      obtain ⟨it, s'⟩ := v
      have hlt := (lexer_next_facts s it s' hn).1
      simp only [lexStreamF, hn]
      rw [lexStreamF_congr f1 f2 s' (by omega) (by omega)]

lemma inv_ofString (str : String) : Inv (Source.ofString str) := by
  refine ⟨by simp [Source.ofString, Position.init], by simp [Source.ofString, Position.init]⟩

lemma lexStream_no_panic (s : Source) (h : Inv s) : LexItem.panicked ∉ lexStream s :=
  lexStreamF_no_panic _ _ h

lemma lex_no_panic (str : String) :
    LexItem.panicked ∉ lexStream (Source.ofString str) :=
  lexStream_no_panic _ (inv_ofString str)

lemma lexStream_unfold (s : Source) :
    lexStream s =
      match lexer_next s with
      | none => []
      | some (item, s') => item :: lexStream s' := by
  conv_lhs => unfold lexStream
  cases hn : lexer_next s with
  | none => simp only [lexStreamF, hn]
  | some v =>
    obtain ⟨it, s'⟩ := v
    have hlt := (lexer_next_facts s it s' hn).1
    simp only [lexStreamF, hn]
    unfold lexStream
    rw [lexStreamF_congr s.rest.length (s'.rest.length + 1) s' (by omega) (by omega)]

end LexerLemmas

/-- Claim C1: each operand of an additive binary node is parsed at the
multiplicative tier (parse_additive_expression obtains both its first operand
and, through additive_loop, every further operand from
parse_multiplicative_expression), so multiplication binds tighter than
addition: the token sequence of "1 + 2 * 3" parses to
Plus(Literal(1), Multiply(Literal(2), Literal(3))). -/
theorem claim1_multiplication_binds_tighter :
    (∀ (fuel : Nat) (p : Parser),
      parse_additive_expression (fuel + 1) p =
        match parse_multiplicative_expression fuel p with
        | some (.ok (e, p1)) => additive_loop fuel e p1
        | other => other) ∧
    lex "1 + 2 * 3" = some (.ok
      [⟨.Number ['1'], ⟨0, 0, 0⟩⟩, ⟨.Plus, ⟨0, 2, 2⟩⟩, ⟨.Number ['2'], ⟨0, 4, 4⟩⟩,
        ⟨.Multiply, ⟨0, 6, 6⟩⟩, ⟨.Number ['3'], ⟨0, 8, 8⟩⟩]) ∧
    (Parser.new
      [⟨.Number ['1'], ⟨0, 0, 0⟩⟩, ⟨.Plus, ⟨0, 2, 2⟩⟩, ⟨.Number ['2'], ⟨0, 4, 4⟩⟩,
        ⟨.Multiply, ⟨0, 6, 6⟩⟩, ⟨.Number ['3'], ⟨0, 8, 8⟩⟩]).bind Parser.parse =
      some (.ok (.BinaryExpression (.Literal ⟨.Number ['1'], ⟨0, 0, 0⟩⟩) ⟨.Plus, ⟨0, 2, 2⟩⟩
        (.BinaryExpression (.Literal ⟨.Number ['2'], ⟨0, 4, 4⟩⟩) ⟨.Multiply, ⟨0, 6, 6⟩⟩
          (.Literal ⟨.Number ['3'], ⟨0, 8, 8⟩⟩)))) :=
  ⟨fun fuel p => rfl, by decide, by decide⟩

/-- Claim C2: every binary tier routine is a left-associative fold. For every
chain literal op literal op ... of operators of one tier, the parse result is
the left-nested tree folding each new BinaryExpression onto the previous
result; in particular the token sequence of "1 - 2 - 3" parses to
Minus(Minus(Literal(1), Literal(2)), Literal(3)). -/
theorem claim2_left_associative_fold :
    (∀ (a : Token) (pairs : List (Token × Token)) (ppos : Position),
      a.is_literal = true →
      (∀ q ∈ pairs, (q.1).is_equality_operator = true ∧ (q.2).is_literal = true) →
      Parser.parse ⟨a :: interleave pairs, ppos⟩ = some (.ok (leftNest (.Literal a) pairs))) ∧
    (∀ (a : Token) (pairs : List (Token × Token)) (ppos : Position),
      a.is_literal = true →
      (∀ q ∈ pairs, (q.1).is_comparison_operator = true ∧ (q.2).is_literal = true) →
      Parser.parse ⟨a :: interleave pairs, ppos⟩ = some (.ok (leftNest (.Literal a) pairs))) ∧
    (∀ (a : Token) (pairs : List (Token × Token)) (ppos : Position),
      a.is_literal = true →
      (∀ q ∈ pairs, (q.1).is_additive_operator = true ∧ (q.2).is_literal = true) →
      Parser.parse ⟨a :: interleave pairs, ppos⟩ = some (.ok (leftNest (.Literal a) pairs))) ∧
    (∀ (a : Token) (pairs : List (Token × Token)) (ppos : Position),
      a.is_literal = true →
      (∀ q ∈ pairs, (q.1).is_multiplicative_operator = true ∧ (q.2).is_literal = true) →
      Parser.parse ⟨a :: interleave pairs, ppos⟩ = some (.ok (leftNest (.Literal a) pairs))) ∧
    (lex "1 - 2 - 3" = some (.ok
      [⟨.Number ['1'], ⟨0, 0, 0⟩⟩, ⟨.Minus, ⟨0, 2, 2⟩⟩, ⟨.Number ['2'], ⟨0, 4, 4⟩⟩,
        ⟨.Minus, ⟨0, 6, 6⟩⟩, ⟨.Number ['3'], ⟨0, 8, 8⟩⟩]) ∧
    (Parser.new
      [⟨.Number ['1'], ⟨0, 0, 0⟩⟩, ⟨.Minus, ⟨0, 2, 2⟩⟩, ⟨.Number ['2'], ⟨0, 4, 4⟩⟩,
        ⟨.Minus, ⟨0, 6, 6⟩⟩, ⟨.Number ['3'], ⟨0, 8, 8⟩⟩]).bind Parser.parse =
      some (.ok (.BinaryExpression
        (.BinaryExpression (.Literal ⟨.Number ['1'], ⟨0, 0, 0⟩⟩) ⟨.Minus, ⟨0, 2, 2⟩⟩
          (.Literal ⟨.Number ['2'], ⟨0, 4, 4⟩⟩)) ⟨.Minus, ⟨0, 6, 6⟩⟩
        (.Literal ⟨.Number ['3'], ⟨0, 8, 8⟩⟩)))) := by
  refine ⟨?_, ?_, ?_, ?_, by decide, by decide⟩
  · intro a pairs ppos ha hq
    exact parse_wrap a pairs ppos _ (fun g hg => equality_full g a pairs ppos ha hq hg)
  · intro a pairs ppos ha hq
    exact parse_wrap a pairs ppos _ (fun g hg => comparison_full g a pairs ppos ha hq hg)
  · intro a pairs ppos ha hq
    exact parse_wrap a pairs ppos _ (fun g hg => additive_full g a pairs ppos ha hq hg)
  · intro a pairs ppos ha hq
    exact parse_wrap a pairs ppos _ (fun g hg => multiplicative_full g a pairs ppos ha hq hg)

/-- Witness of claim C2: the four tier statements applied to concrete
three-element chains over each tier's operators. -/
theorem claim2_left_associative_fold_witness :
    Parser.parse ⟨⟨.Number ['1'], ⟨0, 0, 0⟩⟩ :: interleave
        [(⟨.Equals, ⟨0, 1, 1⟩⟩, ⟨.Number ['2'], ⟨0, 2, 2⟩⟩),
          (⟨.NotEquals, ⟨0, 3, 3⟩⟩, ⟨.Number ['3'], ⟨0, 4, 4⟩⟩)], ⟨0, 0, 0⟩⟩ =
      some (.ok (leftNest (.Literal ⟨.Number ['1'], ⟨0, 0, 0⟩⟩)
        [(⟨.Equals, ⟨0, 1, 1⟩⟩, ⟨.Number ['2'], ⟨0, 2, 2⟩⟩),
          (⟨.NotEquals, ⟨0, 3, 3⟩⟩, ⟨.Number ['3'], ⟨0, 4, 4⟩⟩)])) ∧
    Parser.parse ⟨⟨.Number ['1'], ⟨0, 0, 0⟩⟩ :: interleave
        [(⟨.LessThan, ⟨0, 1, 1⟩⟩, ⟨.Number ['2'], ⟨0, 2, 2⟩⟩),
          (⟨.GreaterThanOrEquals, ⟨0, 3, 3⟩⟩, ⟨.Number ['3'], ⟨0, 4, 4⟩⟩)], ⟨0, 0, 0⟩⟩ =
      some (.ok (leftNest (.Literal ⟨.Number ['1'], ⟨0, 0, 0⟩⟩)
        [(⟨.LessThan, ⟨0, 1, 1⟩⟩, ⟨.Number ['2'], ⟨0, 2, 2⟩⟩),
          (⟨.GreaterThanOrEquals, ⟨0, 3, 3⟩⟩, ⟨.Number ['3'], ⟨0, 4, 4⟩⟩)])) ∧
    Parser.parse ⟨⟨.Number ['1'], ⟨0, 0, 0⟩⟩ :: interleave
        [(⟨.Minus, ⟨0, 1, 1⟩⟩, ⟨.Number ['2'], ⟨0, 2, 2⟩⟩),
          (⟨.Plus, ⟨0, 3, 3⟩⟩, ⟨.Number ['3'], ⟨0, 4, 4⟩⟩)], ⟨0, 0, 0⟩⟩ =
      some (.ok (leftNest (.Literal ⟨.Number ['1'], ⟨0, 0, 0⟩⟩)
        [(⟨.Minus, ⟨0, 1, 1⟩⟩, ⟨.Number ['2'], ⟨0, 2, 2⟩⟩),
          (⟨.Plus, ⟨0, 3, 3⟩⟩, ⟨.Number ['3'], ⟨0, 4, 4⟩⟩)])) ∧
    Parser.parse ⟨⟨.Number ['1'], ⟨0, 0, 0⟩⟩ :: interleave
        [(⟨.Multiply, ⟨0, 1, 1⟩⟩, ⟨.Number ['2'], ⟨0, 2, 2⟩⟩),
          (⟨.Divide, ⟨0, 3, 3⟩⟩, ⟨.Number ['3'], ⟨0, 4, 4⟩⟩)], ⟨0, 0, 0⟩⟩ =
      some (.ok (leftNest (.Literal ⟨.Number ['1'], ⟨0, 0, 0⟩⟩)
        [(⟨.Multiply, ⟨0, 1, 1⟩⟩, ⟨.Number ['2'], ⟨0, 2, 2⟩⟩),
          (⟨.Divide, ⟨0, 3, 3⟩⟩, ⟨.Number ['3'], ⟨0, 4, 4⟩⟩)])) :=
  ⟨claim2_left_associative_fold.1 _ _ _ (by decide) (by decide),
    claim2_left_associative_fold.2.1 _ _ _ (by decide) (by decide),
    claim2_left_associative_fold.2.2.1 _ _ _ (by decide) (by decide),
    claim2_left_associative_fold.2.2.2.1 _ _ _ (by decide) (by decide)⟩

/-- Claim C4 counterexample: the token sequence of "x" has an Identifier token
at the literal position, and parse does not yield a Literal node wrapping it:
it fails with ExpectedLiteral, because the parser-side Token::is_literal
recognizes only String, Number and the keywords true, false, nil. -/
theorem claim4_identifier_literal_counterexample :
    lex "x" = some (.ok [⟨.Identifier ['x'], ⟨0, 0, 0⟩⟩]) ∧
    (Parser.new [⟨.Identifier ['x'], ⟨0, 0, 0⟩⟩]).bind Parser.parse =
      some (.error ⟨⟨0, 0, 0⟩, .ExpectedLiteral⟩) := by
  exact ⟨by decide, by decide⟩

/-- Claim C4 as amended: an IDENTIFIER token is not a valid literal for the
parser. Token::is_literal (the parser-side impl) is false on every Identifier
token, so parse_literal on a token sequence headed by an Identifier fails with
ExpectedLiteral anchored at the parser's stored position. -/
theorem claim4_identifier_not_literal :
    (∀ (value : List Char) (pos : Position),
      Token.is_literal ⟨.Identifier value, pos⟩ = false) ∧
    (∀ (value : List Char) (pos : Position) (rest : List Token) (ppos : Position),
      parse_literal ⟨⟨.Identifier value, pos⟩ :: rest, ppos⟩ =
        .error ⟨ppos, .ExpectedLiteral⟩) :=
  ⟨fun value pos => rfl, fun value pos rest ppos => rfl⟩

/-- Claim C7: when a token sequence starts with an OpenParanthesis token whose
enclosed expression parses but no CloseParanthesis token follows,
parse_paranthesized fails with ExpectedCloseParanthesis anchored at the
opening parenthesis token's position; when the closing parenthesis is present
it returns the inner expression. Concretely, the token sequence of "(1 + 2"
fails with ExpectedCloseParanthesis at position index 0. -/
theorem claim7_unmatched_paren_anchor :
    (∀ (fuel : Nat) (p : Parser) (open_tok : Token) (rest : List Token) (e : Expression)
        (p2 : Parser),
      p.tokens = open_tok :: rest →
      open_tok.type = TokenType.OpenParanthesis →
      parse_expression fuel ⟨rest, p.position⟩ = some (.ok (e, p2)) →
      ((∀ t, p2.tokens.head? = some t → (t.type == TokenType.CloseParanthesis) = false) →
        parse_paranthesized (fuel + 1) p =
          some (.error ⟨open_tok.position, .ExpectedCloseParanthesis⟩)) ∧
      (∀ (t : Token) (ts : List Token), p2.tokens = t :: ts →
        t.type = TokenType.CloseParanthesis →
        parse_paranthesized (fuel + 1) p = some (.ok (e, ⟨ts, p2.position⟩)))) ∧
    lex "(1 + 2" = some (.ok
      [⟨.OpenParanthesis, ⟨0, 0, 0⟩⟩, ⟨.Number ['1'], ⟨0, 1, 1⟩⟩, ⟨.Plus, ⟨0, 3, 3⟩⟩,
        ⟨.Number ['2'], ⟨0, 5, 5⟩⟩]) ∧
    (Parser.new
      [⟨.OpenParanthesis, ⟨0, 0, 0⟩⟩, ⟨.Number ['1'], ⟨0, 1, 1⟩⟩, ⟨.Plus, ⟨0, 3, 3⟩⟩,
        ⟨.Number ['2'], ⟨0, 5, 5⟩⟩]).bind Parser.parse =
      some (.error ⟨⟨0, 0, 0⟩, .ExpectedCloseParanthesis⟩) := by
  refine ⟨?_, by decide, by decide⟩
  intro fuel p open_tok rest e p2 hp hty hinner
  cases p with
  | mk ptoks ppos =>
    simp only [Parser.tokens] at hp
    subst hp
    have hopen : Parser.next_if (fun t => t.type == TokenType.OpenParanthesis)
        ⟨open_tok :: rest, ppos⟩ = some (open_tok, ⟨rest, ppos⟩) := by
      simp [Parser.next_if, hty]
    constructor
    · intro hnone
      have hclose : Parser.next_if (fun t => t.type == TokenType.CloseParanthesis) p2 = none :=
        next_if_none _ _ (fun t h => hnone t h)
      conv_lhs => rw [parse_paranthesized]
      simp only [hopen, hinner, hclose]
    · intro t ts hts htype
      have hclose : Parser.next_if (fun t => t.type == TokenType.CloseParanthesis) p2 =
          some (t, ⟨ts, p2.position⟩) := by
        cases p2 with
        | mk qt qp =>
          simp only [Parser.tokens] at hts
          subst hts
          simp [Parser.next_if, htype]
      conv_lhs => rw [parse_paranthesized]
      simp only [hopen, hinner, hclose]

/-- Witness of claim C7: the universal statement applied to the token
sequences of "(1 + 2" (missing close parenthesis, error anchored at the open
parenthesis) and "(1)" (close parenthesis present, inner expression
returned). -/
theorem claim7_unmatched_paren_anchor_witness :
    parse_paranthesized 21
      ⟨[⟨.OpenParanthesis, ⟨0, 0, 0⟩⟩, ⟨.Number ['1'], ⟨0, 1, 1⟩⟩, ⟨.Plus, ⟨0, 3, 3⟩⟩,
        ⟨.Number ['2'], ⟨0, 5, 5⟩⟩], ⟨0, 0, 0⟩⟩ =
      some (.error ⟨⟨0, 0, 0⟩, .ExpectedCloseParanthesis⟩) ∧
    parse_paranthesized 21
      ⟨[⟨.OpenParanthesis, ⟨0, 0, 0⟩⟩, ⟨.Number ['1'], ⟨0, 1, 1⟩⟩,
        ⟨.CloseParanthesis, ⟨0, 2, 2⟩⟩], ⟨0, 0, 0⟩⟩ =
      some (.ok (.Literal ⟨.Number ['1'], ⟨0, 1, 1⟩⟩, ⟨[], ⟨0, 0, 0⟩⟩)) :=
  ⟨(claim7_unmatched_paren_anchor.1 20 _ ⟨.OpenParanthesis, ⟨0, 0, 0⟩⟩
      [⟨.Number ['1'], ⟨0, 1, 1⟩⟩, ⟨.Plus, ⟨0, 3, 3⟩⟩, ⟨.Number ['2'], ⟨0, 5, 5⟩⟩]
      (.BinaryExpression (.Literal ⟨.Number ['1'], ⟨0, 1, 1⟩⟩) ⟨.Plus, ⟨0, 3, 3⟩⟩
        (.Literal ⟨.Number ['2'], ⟨0, 5, 5⟩⟩))
      ⟨[], ⟨0, 0, 0⟩⟩ rfl rfl (by decide)).1 (by decide),
    (claim7_unmatched_paren_anchor.1 20 _ ⟨.OpenParanthesis, ⟨0, 0, 0⟩⟩
      [⟨.Number ['1'], ⟨0, 1, 1⟩⟩, ⟨.CloseParanthesis, ⟨0, 2, 2⟩⟩]
      (.Literal ⟨.Number ['1'], ⟨0, 1, 1⟩⟩)
      ⟨[⟨.CloseParanthesis, ⟨0, 2, 2⟩⟩], ⟨0, 0, 0⟩⟩ rfl rfl (by decide)).2
      ⟨.CloseParanthesis, ⟨0, 2, 2⟩⟩ [] rfl rfl⟩

/-- Claim C8 counterexample: on the token sequence of "1 + +" the parser needs
a literal while looking at the second Plus token, whose position has index 4,
but the ExpectedLiteral error is anchored at position index 0 — the first
token's position stored at construction — not at the token the parser is
currently looking at. -/
theorem claim8_current_position_counterexample :
    lex "1 + +" = some (.ok
      [⟨.Number ['1'], ⟨0, 0, 0⟩⟩, ⟨.Plus, ⟨0, 2, 2⟩⟩, ⟨.Plus, ⟨0, 4, 4⟩⟩]) ∧
    (Parser.new [⟨.Number ['1'], ⟨0, 0, 0⟩⟩, ⟨.Plus, ⟨0, 2, 2⟩⟩, ⟨.Plus, ⟨0, 4, 4⟩⟩]).bind
      Parser.parse = some (.error ⟨⟨0, 0, 0⟩, .ExpectedLiteral⟩) ∧
    (⟨0, 0, 0⟩ : Position) ≠ ⟨0, 4, 4⟩ := by
  exact ⟨by decide, by decide, by decide⟩

/-- Claim C8 as amended: when the parser needs a literal and the next token is
not a recognized literal kind (or the tokens are exhausted), it fails with
ExpectedLiteral anchored at the parser's stored position, which Parser::new
sets to the position of the first token of the whole sequence and which is
never updated. -/
theorem claim8_expected_literal_stored_position :
    (∀ p : Parser, (∀ t, p.tokens.head? = some t → t.is_literal = false) →
      parse_literal p = .error ⟨p.position, .ExpectedLiteral⟩) ∧
    (∀ (t : Token) (ts : List Token), Parser.new (t :: ts) = some ⟨t :: ts, t.position⟩) := by
  constructor
  · intro p h
    unfold parse_literal
    rw [next_if_none _ _ h]
  · intro t ts
    rfl

/-- Witness of claim C8 as amended: the statement applied to a parser state
looking at a Plus token at index 4 while its stored position is index 0. -/
theorem claim8_expected_literal_stored_position_witness :
    parse_literal ⟨[⟨.Plus, ⟨0, 4, 4⟩⟩], ⟨0, 0, 0⟩⟩ =
      .error ⟨⟨0, 0, 0⟩, .ExpectedLiteral⟩ :=
  claim8_expected_literal_stored_position.1 ⟨[⟨.Plus, ⟨0, 4, 4⟩⟩], ⟨0, 0, 0⟩⟩
    (by intro t h; simp only [List.head?_cons, Option.some.injEq] at h; subst h; rfl)

/-- Claim C10: parse does not require the token sequence to be exhausted. For
any two consecutive Number tokens, parse succeeds with the Literal of the
first token, leaves the second token unconsumed, and reports no error;
concretely the token sequence of "1 2" parses to Literal(1). -/
theorem claim10_trailing_tokens_allowed :
    (∀ (v1 v2 : List Char) (p1 p2 ppos : Position),
      Parser.parse ⟨[⟨.Number v1, p1⟩, ⟨.Number v2, p2⟩], ppos⟩ =
        some (.ok (.Literal ⟨.Number v1, p1⟩))) ∧
    (∀ (v1 v2 : List Char) (p1 p2 : Position),
      Parser.new [⟨.Number v1, p1⟩, ⟨.Number v2, p2⟩] =
        some ⟨[⟨.Number v1, p1⟩, ⟨.Number v2, p2⟩], p1⟩) ∧
    lex "1 2" = some (.ok [⟨.Number ['1'], ⟨0, 0, 0⟩⟩, ⟨.Number ['2'], ⟨0, 2, 2⟩⟩]) ∧
    (Parser.new [⟨.Number ['1'], ⟨0, 0, 0⟩⟩, ⟨.Number ['2'], ⟨0, 2, 2⟩⟩]).bind Parser.parse =
      some (.ok (.Literal ⟨.Number ['1'], ⟨0, 0, 0⟩⟩)) :=
  ⟨fun v1 v2 p1 p2 ppos => rfl, fun v1 v2 p1 p2 => rfl, by decide, by decide⟩

/-- Claim C3: on single-byte (ASCII) source text — the domain on which the
character classes and the character-indexed slicing of this embedding
coincide with the program's Unicode classes and byte slicing, and on which
lexing returns at all (claim C9): lex drains the whole input — lexStream
satisfies the unfueled drain recurrence, stepping over errors rather than
stopping — and partitions the drained items: if any lexical error occurred,
lex returns the complete list of all errors in source order, and otherwise
the complete list of all tokens in source order. Concretely "^^" yields both
of its InvalidCharacter errors, not only the first. -/
theorem claim3_lex_collects_all_errors :
    (∀ s : Source, (∀ c ∈ s.rest, c.toNat ≤ 127) →
      lexStream s =
        match lexer_next s with
        | none => []
        | some (item, s') => item :: lexStream s') ∧
    (∀ source : String, (∀ c ∈ source.data, c.toNat ≤ 127) →
      lex source = some (
        if (lexStream (Source.ofString source)).filterMap LexItem.error? = []
        then .ok ((lexStream (Source.ofString source)).filterMap LexItem.token?)
        else .error ((lexStream (Source.ofString source)).filterMap LexItem.error?))) ∧
    lex "^^" = some (.error
      [⟨⟨0, 0, 0⟩, .InvalidCharacter⟩, ⟨⟨0, 1, 1⟩, .InvalidCharacter⟩]) := by
  refine ⟨fun s _ => lexStream_unfold s, ?_, by decide⟩
  intro source hascii
  simp only [lex]
  rw [if_neg (lex_no_panic source)]
  by_cases he : (lexStream (Source.ofString source)).filterMap LexItem.error? = []
  · simp [he]
  · simp [List.isEmpty_iff, he]

/-- Witness of claim C3: the drain recurrence and the error partition applied
to the ASCII source "^^". -/
theorem claim3_lex_collects_all_errors_witness :
    (lexStream (Source.ofString "^^") =
      match lexer_next (Source.ofString "^^") with
      | none => []
      | some (item, s') => item :: lexStream s') ∧
    lex "^^" = some (
      if (lexStream (Source.ofString "^^")).filterMap LexItem.error? = []
      then .ok ((lexStream (Source.ofString "^^")).filterMap LexItem.token?)
      else .error ((lexStream (Source.ofString "^^")).filterMap LexItem.error?)) :=
  ⟨claim3_lex_collects_all_errors.1 (Source.ofString "^^") (by decide),
    claim3_lex_collects_all_errors.2.1 "^^" (by decide)⟩

/-- Claim C5 (code bug): a line comment terminated by a newline does not lex
cleanly. After consume_comment stops in front of the newline, lex_symbol's
next() consumes the newline itself and falls through the symbol table, so the
whitespace-and-comment-only input "//\n" produces an InvalidCharacter error at
the newline instead of the empty token sequence; a comment not terminated by
a newline and pure whitespace do lex to the empty sequence. -/
theorem claim5_comment_terminated_by_newline_errors :
    lex "//\n" = some (.error [⟨⟨0, 2, 2⟩, .InvalidCharacter⟩]) ∧
    lex "//x" = some (.ok []) ∧
    lex " \t\n " = some (.ok []) :=
  ⟨by decide, by decide, by decide⟩

/-- Claim C6 (code bug): the close-brace character lexes to
TokenType.OpenBrace, not TokenType.CloseBrace — src/src/lexer/mod.rs line 188
maps the close-brace character to OpenBrace, so both brace characters produce
the same token type even though the distinct CloseBrace variant exists. -/
theorem claim6_close_brace_lexes_as_open_brace :
    lex "\x7d" = some (.ok [⟨.OpenBrace, ⟨0, 0, 0⟩⟩]) ∧
    lex "\x7b" = some (.ok [⟨.OpenBrace, ⟨0, 0, 0⟩⟩]) ∧
    TokenType.OpenBrace ≠ TokenType.CloseBrace :=
  ⟨by decide, by decide, by decide⟩

/-- Claim C9: on single-byte (ASCII) source text, every slice the lexer
computes is in bounds (and, character index equalling byte index, on a
character boundary), so lexing never panics and lex is total: the drained
stream contains no panicked item and lex returns a value. -/
theorem claim9_ascii_lexing_never_panics :
    ∀ source : String, (∀ c ∈ source.data, c.toNat ≤ 127) →
      LexItem.panicked ∉ lexStream (Source.ofString source) ∧
      ∃ r, lex source = some r := by
  intro source hascii
  refine ⟨lex_no_panic source, ?_⟩
  simp only [lex]
  rw [if_neg (lex_no_panic source)]
  split <;> exact ⟨_, rfl⟩

/-- Witness of claim C9: the statement applied to the ASCII source
"1 + 2". -/
theorem claim9_ascii_lexing_never_panics_witness :
    (∀ c ∈ "1 + 2".data, c.toNat ≤ 127) ∧
    (LexItem.panicked ∉ lexStream (Source.ofString "1 + 2") ∧
      ∃ r, lex "1 + 2" = some r) :=
  ⟨by decide, claim9_ascii_lexing_never_panics "1 + 2" (by decide)⟩

end CraftingInterpreters
